import Mathlib

/-!
Verification development for a deterministic wallet seed generator.

The program derives cryptocurrency accounts from four user factors:
a password, a user salt, an application salt, and a cost exponent.
Two pipelines exist: an EVM/secp256k1 one (generator.js) and a
Solana/Ed25519 one (sol-generator.js).  Both combine the two salts with
SHA-256, stretch the password with scrypt (via node crypto.scryptSync),
and materialize a chain-specific account.

Inputs that are JavaScript strings are modelled as their UTF-8 byte
sequences (List Nat, each entry a byte); JavaScript string concatenation
corresponds to list append of the encoded bytes.
-/

/-- Error kinds of the derivation pipeline, per the documented failure
modes: invalid scrypt parameters or an unparseable/non-positive cost
input, the scrypt memory ceiling being exceeded, and a derived seed
falling outside the valid secp256k1 scalar range. -/
inductive GenError where
  | invalidParameter
  | resourceLimitExceeded
  | invalidKeyMaterial
deriving DecidableEq

/-! Section: Byte and word helpers -/

/-- Big-endian bytes of a natural number, fixed width k. -/
def beBytes (k n : Nat) : List Nat :=
  (List.range k).map (fun i => (n >>> (8 * (k - 1 - i))) % 256)

/-- Little-endian bytes of a natural number, fixed width k. -/
def leBytes (k n : Nat) : List Nat :=
  (List.range k).map (fun i => (n >>> (8 * i)) % 256)

/-- Value of a big-endian byte sequence. -/
def beToNat : List Nat → Nat
  | [] => 0
  | x :: rest => x * 256 ^ rest.length + beToNat rest

/-- Value of a little-endian byte sequence. -/
def leToNat : List Nat → Nat
  | [] => 0
  | x :: rest => x + 256 * leToNat rest

/-- Right rotation of a 32-bit word. -/
def rotr32 (n x : Nat) : Nat :=
  ((x >>> n) ||| (x <<< (32 - n))) % 4294967296

/-- Left rotation of a 32-bit word. -/
def rotl32 (n x : Nat) : Nat :=
  ((x <<< n) ||| (x >>> (32 - n))) % 4294967296

/-- Left rotation of a 64-bit word. -/
def rotl64 (n x : Nat) : Nat :=
  ((x <<< n) ||| (x >>> (64 - n))) % 18446744073709551616

/-- Right rotation of a 64-bit word. -/
def rotr64 (n x : Nat) : Nat :=
  ((x >>> n) ||| (x <<< (64 - n))) % 18446744073709551616

/-- Split a list into consecutive chunks of size n (the input length is
a multiple of n wherever this is used). -/
def chunksOf (n : Nat) (l : List α) : List (List α) :=
  (List.range (l.length / n)).map (fun i => (l.drop (n * i)).take n)

/-! Section: SHA-256 (FIPS 180-4), as computed by node crypto.createHash -/

/-- The eight working variables of the SHA-2 compression function. -/
structure Hash8 where
  a : Nat
  b : Nat
  c : Nat
  d : Nat
  e : Nat
  f : Nat
  g : Nat
  h : Nat

/-- SHA-256 round constants. -/
def sha256K : List Nat :=
  [0x428A2F98, 0x71374491, 0xB5C0FBCF, 0xE9B5DBA5, 0x3956C25B, 0x59F111F1,
   0x923F82A4, 0xAB1C5ED5, 0xD807AA98, 0x12835B01, 0x243185BE, 0x550C7DC3,
   0x72BE5D74, 0x80DEB1FE, 0x9BDC06A7, 0xC19BF174, 0xE49B69C1, 0xEFBE4786,
   0x0FC19DC6, 0x240CA1CC, 0x2DE92C6F, 0x4A7484AA, 0x5CB0A9DC, 0x76F988DA,
   0x983E5152, 0xA831C66D, 0xB00327C8, 0xBF597FC7, 0xC6E00BF3, 0xD5A79147,
   0x06CA6351, 0x14292967, 0x27B70A85, 0x2E1B2138, 0x4D2C6DFC, 0x53380D13,
   0x650A7354, 0x766A0ABB, 0x81C2C92E, 0x92722C85, 0xA2BFE8A1, 0xA81A664B,
   0xC24B8B70, 0xC76C51A3, 0xD192E819, 0xD6990624, 0xF40E3585, 0x106AA070,
   0x19A4C116, 0x1E376C08, 0x2748774C, 0x34B0BCB5, 0x391C0CB3, 0x4ED8AA4A,
   0x5B9CCA4F, 0x682E6FF3, 0x748F82EE, 0x78A5636F, 0x84C87814, 0x8CC70208,
   0x90BEFFFA, 0xA4506CEB, 0xBEF9A3F7, 0xC67178F2]

/-- SHA-256 initial hash value. -/
def sha256IV : Hash8 :=
  ⟨0x6A09E667, 0xBB67AE85, 0x3C6EF372, 0xA54FF53A,
   0x510E527F, 0x9B05688C, 0x1F83D9AB, 0x5BE0CD19⟩

/-- Message padding: a 0x80 byte, zero fill, and the 64-bit big-endian
bit length, bringing the length to a multiple of 64 bytes. -/
def sha256Pad (m : List Nat) : List Nat :=
  m ++ 128 :: List.replicate ((55 + 64 - m.length % 64) % 64) 0
    ++ beBytes 8 (8 * m.length)

/-- Message-schedule extension of the 16 chunk words to 64 words. -/
def sha256Extend (ws : List Nat) : List Nat :=
  (List.range 48).foldl
    (fun acc _ =>
      let n := acc.length
      let w15 := acc.getD (n - 15) 0
      let w2 := acc.getD (n - 2) 0
      let s0 := rotr32 7 w15 ^^^ rotr32 18 w15 ^^^ (w15 >>> 3)
      let s1 := rotr32 17 w2 ^^^ rotr32 19 w2 ^^^ (w2 >>> 10)
      acc ++ [(acc.getD (n - 16) 0 + s0 + acc.getD (n - 7) 0 + s1) % 4294967296])
    ws

/-- One SHA-256 round, consuming a schedule word paired with a round
constant. -/
def sha256Round (st : Hash8) (wk : Nat × Nat) : Hash8 :=
  let s1 := rotr32 6 st.e ^^^ rotr32 11 st.e ^^^ rotr32 25 st.e
  let ch := (st.e &&& st.f) ^^^ ((st.e ^^^ 4294967295) &&& st.g)
  let temp1 := (st.h + s1 + ch + wk.2 + wk.1) % 4294967296
  let s0 := rotr32 2 st.a ^^^ rotr32 13 st.a ^^^ rotr32 22 st.a
  let maj := (st.a &&& st.b) ^^^ (st.a &&& st.c) ^^^ (st.b &&& st.c)
  let temp2 := (s0 + maj) % 4294967296
  ⟨(temp1 + temp2) % 4294967296, st.a, st.b, st.c,
   (st.d + temp1) % 4294967296, st.e, st.f, st.g⟩

/-- SHA-256 compression of one 64-byte chunk into the running state. -/
def sha256Compress (st : Hash8) (chunk : List Nat) : Hash8 :=
  let ws := sha256Extend ((List.range 16).map
    (fun i => beToNat ((chunk.drop (4 * i)).take 4)))
  let t := (List.zip ws sha256K).foldl sha256Round st
  ⟨(st.a + t.a) % 4294967296, (st.b + t.b) % 4294967296,
   (st.c + t.c) % 4294967296, (st.d + t.d) % 4294967296,
   (st.e + t.e) % 4294967296, (st.f + t.f) % 4294967296,
   (st.g + t.g) % 4294967296, (st.h + t.h) % 4294967296⟩

/-- Serialize the final state as 32 big-endian bytes. -/
def hash8BytesBE (st : Hash8) : List Nat :=
  beBytes 4 st.a ++ beBytes 4 st.b ++ beBytes 4 st.c ++ beBytes 4 st.d ++
  beBytes 4 st.e ++ beBytes 4 st.f ++ beBytes 4 st.g ++ beBytes 4 st.h

/-- SHA-256 of a byte sequence. -/
def sha256 (m : List Nat) : List Nat :=
  hash8BytesBE ((chunksOf 64 (sha256Pad m)).foldl sha256Compress sha256IV)

/-! Section: HMAC-SHA256 and PBKDF2 (RFC 2104, RFC 8018) -/

/-- HMAC-SHA256 with the standard 64-byte block size. -/
def hmacSha256 (key msg : List Nat) : List Nat :=
  let k0 := if 64 < key.length then sha256 key else key
  let kp := k0 ++ List.replicate (64 - k0.length) 0
  sha256 ((kp.map (fun b => b ^^^ 92)) ++
    sha256 ((kp.map (fun b => b ^^^ 54)) ++ msg))

/-- The PBKDF2 block function F(P, S, c, i): the xor of the c iterated
HMAC values, starting from HMAC(P, S || INT(i)). -/
def pbkdf2F (pw s : List Nat) (c i : Nat) : List Nat :=
  let u1 := hmacSha256 pw (s ++ beBytes 4 i)
  ((List.range (c - 1)).foldl
    (fun acc _ =>
      let u := hmacSha256 pw acc.2
      (List.zipWith Nat.xor acc.1 u, u))
    (u1, u1)).1

/-- PBKDF2-HMAC-SHA256. -/
def pbkdf2 (pw s : List Nat) (c dkLen : Nat) : List Nat :=
  ((List.range ((dkLen + 31) / 32)).map (fun i => pbkdf2F pw s c (i + 1))).flatten.take dkLen

/-! Section: scrypt (RFC 7914) -/

/-- The Salsa20/8 quarterround on four 32-bit words. -/
def salsaQR (y0 y1 y2 y3 : Nat) : Nat × Nat × Nat × Nat :=
  let z1 := y1 ^^^ rotl32 7 ((y0 + y3) % 4294967296)
  let z2 := y2 ^^^ rotl32 9 ((z1 + y0) % 4294967296)
  let z3 := y3 ^^^ rotl32 13 ((z2 + z1) % 4294967296)
  let z0 := y0 ^^^ rotl32 18 ((z3 + z2) % 4294967296)
  (z0, z1, z2, z3)

/-- One Salsa20 double round (column round then row round) on the
16-word state, laid out as a list in row-major order. -/
def salsaDoubleRound (x : List Nat) : List Nat :=
  let g := fun (l : List Nat) (i : Nat) => l.getD i 0
  let (a0, a4, a8, a12) := salsaQR (g x 0) (g x 4) (g x 8) (g x 12)
  let (a5, a9, a13, a1) := salsaQR (g x 5) (g x 9) (g x 13) (g x 1)
  let (a10, a14, a2, a6) := salsaQR (g x 10) (g x 14) (g x 2) (g x 6)
  let (a15, a3, a7, a11) := salsaQR (g x 15) (g x 3) (g x 7) (g x 11)
  let y := [a0, a1, a2, a3, a4, a5, a6, a7, a8, a9, a10, a11, a12, a13, a14, a15]
  let (b0, b1, b2, b3) := salsaQR (g y 0) (g y 1) (g y 2) (g y 3)
  let (b5, b6, b7, b4) := salsaQR (g y 5) (g y 6) (g y 7) (g y 4)
  let (b10, b11, b8, b9) := salsaQR (g y 10) (g y 11) (g y 8) (g y 9)
  let (b15, b12, b13, b14) := salsaQR (g y 15) (g y 12) (g y 13) (g y 14)
  [b0, b1, b2, b3, b4, b5, b6, b7, b8, b9, b10, b11, b12, b13, b14, b15]

/-- The Salsa20/8 core: 4 double rounds, then add the input words,
mapping 64 bytes to 64 bytes. -/
def salsa208 (input : List Nat) : List Nat :=
  let ws := (List.range 16).map (fun i => leToNat ((input.drop (4 * i)).take 4))
  let z := (List.range 4).foldl (fun acc _ => salsaDoubleRound acc) ws
  ((List.zipWith (fun a b => (a + b) % 4294967296) z ws).map (leBytes 4)).flatten

/-- Elements of a list at even positions. -/
def evenIdx : List α → List α
  | [] => []
  | [a] => [a]
  | a :: _ :: rest => a :: evenIdx rest

/-- Elements of a list at odd positions. -/
def oddIdx : List α → List α
  | [] => []
  | [_] => []
  | _ :: b :: rest => b :: oddIdx rest

/-- scryptBlockMix on a flat 128*r byte block, viewed as 2r 64-byte
sub-blocks: chain Salsa20/8 over xors, then permute even results before
odd ones. -/
def blockMixFlat (b : List Nat) : List Nat :=
  let bs := chunksOf 64 b
  let x0 := bs.getD (bs.length - 1) (List.replicate 64 0)
  let ys := (bs.foldl
    (fun acc bi =>
      let xn := salsa208 (List.zipWith Nat.xor acc.1 bi)
      (xn, acc.2 ++ [xn]))
    (x0, ([] : List (List Nat)))).2
  (evenIdx ys ++ oddIdx ys).flatten

/-- Integerify: the little-endian value of the last 64-byte sub-block. -/
def scryptIntegerify (x : List Nat) : Nat :=
  leToNat (x.drop (x.length - 64))

/-- scryptROMix with cost n on one 128*r byte block. -/
def scryptROMix (n : Nat) (b : List Nat) : List Nat :=
  let vx := (List.range n).foldl
    (fun acc _ => (acc.1 ++ [acc.2], blockMixFlat acc.2))
    (([] : List (List Nat)), b)
  (List.range n).foldl
    (fun x _ =>
      let j := scryptIntegerify x % n
      blockMixFlat (List.zipWith Nat.xor x (vx.1.getD j [])))
    vx.2

/-- The scrypt key derivation function of RFC 7914. -/
def scrypt (pw salt : List Nat) (n r p dkLen : Nat) : List Nat :=
  let b := pbkdf2 pw salt 1 (p * 128 * r)
  let bs := (chunksOf (128 * r) b).map (scryptROMix n)
  pbkdf2 pw bs.flatten 1 dkLen

/-- Model of node crypto.scryptSync(password, salt, keyLength, options)
with options N, r, p and the default maxmem of 32 * 1024 * 1024 bytes.
Node rejects an N that is not a power of two greater than one, and
(per its documented memory bound) errors when 128 * N * r exceeds
maxmem; the spec names these failures InvalidParameter and
ResourceLimitExceeded.  On success it returns the RFC 7914 scrypt
output of keyLength bytes. -/
def scryptSync (password salt : List Nat) (keyLength n r p : Nat) :
    Except GenError (List Nat) :=
  if n ≤ 1 ∨ n &&& (n - 1) ≠ 0 then .error .invalidParameter
  else if 32 * 1024 * 1024 < 128 * n * r then .error .resourceLimitExceeded
  else .ok (scrypt password salt n r p keyLength)

/-! Section: Keccak-256, as used for Ethereum addresses -/

/-- Keccak rotation offsets, indexed by lane position x + 5*y. -/
def keccakRho : List Nat :=
  [0, 1, 62, 28, 27, 36, 44, 6, 55, 20, 3, 10, 43]
    ++ [25, 39, 41, 45, 15, 21, 8, 18, 2, 61, 56, 14]

/-- Keccak round constants. -/
def keccakRC : List Nat :=
  [0x1, 0x8082, 0x800000000000808a,
   0x8000000080008000, 0x808b, 0x80000001,
   0x8000000080008081, 0x8000000000008009, 0x8a,
   0x88, 0x80008009, 0x8000000a,
   0x8000808b, 0x800000000000008b, 0x8000000000008089,
   0x8000000000008003, 0x8000000000008002, 0x8000000000000080,
   0x800a, 0x800000008000000a, 0x8000000080008081,
   0x8000000000008080, 0x80000001, 0x8000000080008008]

/-- One Keccak-f[1600] round on the 25-lane state (lane x + 5*y). -/
def keccakRound (lanes : List Nat) (round : Nat) : List Nat :=
  let l := fun (i : Nat) => lanes.getD i 0
  let c := (List.range 5).map
    (fun x => l x ^^^ l (x + 5) ^^^ l (x + 10) ^^^ l (x + 15) ^^^ l (x + 20))
  let d := (List.range 5).map
    (fun x => c.getD ((x + 4) % 5) 0 ^^^ rotl64 1 (c.getD ((x + 1) % 5) 0))
  let a1 := (List.range 25).map (fun i => l i ^^^ d.getD (i % 5) 0)
  let b := (List.range 25).map (fun j =>
    let xp := j % 5
    let yp := j / 5
    let src := (xp + 3 * yp) % 5 + 5 * xp
    rotl64 (keccakRho.getD src 0) (a1.getD src 0))
  let chi := (List.range 25).map (fun j =>
    let x := j % 5
    let y := j / 5
    b.getD j 0 ^^^
      ((18446744073709551615 ^^^ b.getD ((x + 1) % 5 + 5 * y) 0) &&&
        b.getD ((x + 2) % 5 + 5 * y) 0))
  chi.set 0 (chi.getD 0 0 ^^^ keccakRC.getD round 0)

/-- The full Keccak-f[1600] permutation. -/
def keccakF (lanes : List Nat) : List Nat :=
  (List.range 24).foldl keccakRound lanes

/-- Keccak padding for rate 136 (the original 0x01 ... 0x80 pad used by
Ethereum, not the SHA-3 0x06 variant). -/
def keccakPad (m : List Nat) : List Nat :=
  let q := 136 - m.length % 136
  if q = 1 then m ++ [0x81] else m ++ 0x01 :: List.replicate (q - 2) 0 ++ [0x80]

/-- Keccak-256 of a byte sequence. -/
def keccak256 (m : List Nat) : List Nat :=
  let st := (chunksOf 136 (keccakPad m)).foldl
    (fun st blk => keccakF ((List.range 25).map
      (fun i => st.getD i 0 ^^^
        (if i < 17 then leToNat ((blk.drop (8 * i)).take 8) else 0))))
    (List.replicate 25 0)
  (List.range 32).map (fun i => (st.getD (i / 8) 0 >>> (8 * (i % 8))) % 256)

/-! Section: secp256k1 and the ethers Wallet model

generator.js builds the account with new Wallet(privateKey) from the
ethers library: the key must be a nonzero scalar below the curve order
(otherwise the constructor throws, which the spec calls
InvalidKeyMaterial), the public key is the scalar multiple of the
generator, and the address is the EIP-55 checksummed rendering of the
last 20 bytes of the Keccak-256 hash of the 64 X||Y public key bytes. -/

/-- The secp256k1 field prime. -/
def secpP : Nat := 2 ^ 256 - 2 ^ 32 - 977

/-- The secp256k1 group order. -/
def secpN : Nat :=
  0xFFFFFFFFFFFFFFFFFFFFFFFFFFFFFFFEBAAEDCE6AF48A03BBFD25E8CD0364141

/-- x-coordinate of the secp256k1 generator. -/
def secpGx : Nat :=
  0x79BE667EF9DCBBAC55A06295CE870B07029BFCDB2DCE28D959F2815B16F81798

/-- y-coordinate of the secp256k1 generator. -/
def secpGy : Nat :=
  0x483ADA7726A3C4655DA4FBFC0E1108A8FD17B448A68554199C47D08FFB10D4B8

/-- Modular subtraction for operands already reduced by m. -/
def subMod (a b m : Nat) : Nat := (a % m + (m - b % m)) % m

/-- Modular exponentiation by an exponent below 2^256, via 256 fixed
square-and-multiply steps. -/
def powMod256 (b e m : Nat) : Nat :=
  (List.range 256).foldl
    (fun acc i =>
      let acc2 := acc * acc % m
      if e.testBit (255 - i) then acc2 * b % m else acc2)
    (1 % m)

/-- A point in Jacobian coordinates; z = 0 encodes the point at
infinity. -/
structure JacPt where
  x : Nat
  y : Nat
  z : Nat

/-- Jacobian point doubling on secp256k1 (curve coefficient a = 0). -/
def jacDouble (pt : JacPt) : JacPt :=
  if pt.z = 0 ∨ pt.y = 0 then ⟨1, 1, 0⟩
  else
    let y2 := pt.y * pt.y % secpP
    let s := 4 * pt.x * y2 % secpP
    let m := 3 * pt.x * pt.x % secpP
    let x3 := subMod (m * m % secpP) (2 * s) secpP
    let y3 := subMod (m * subMod s x3 secpP % secpP) (8 * y2 * y2) secpP
    let z3 := 2 * pt.y * pt.z % secpP
    ⟨x3, y3, z3⟩

/-- Jacobian point addition on secp256k1. -/
def jacAdd (p q : JacPt) : JacPt :=
  if p.z = 0 then q
  else if q.z = 0 then p
  else
    let z1z1 := p.z * p.z % secpP
    let z2z2 := q.z * q.z % secpP
    let u1 := p.x * z2z2 % secpP
    let u2 := q.x * z1z1 % secpP
    let s1 := p.y * z2z2 % secpP * q.z % secpP
    let s2 := q.y * z1z1 % secpP * p.z % secpP
    if u1 = u2 then
      if s1 = s2 then jacDouble p else ⟨1, 1, 0⟩
    else
      let h := subMod u2 u1 secpP
      let h2 := h * h % secpP
      let h3 := h2 * h % secpP
      let r := subMod s2 s1 secpP
      let x3 := subMod (r * r % secpP) (h3 + 2 * (u1 * h2 % secpP)) secpP
      let y3 := subMod (r * subMod (u1 * h2 % secpP) x3 secpP % secpP)
        (s1 * h3 % secpP) secpP
      let z3 := h * p.z % secpP * q.z % secpP
      ⟨x3, y3, z3⟩

/-- Scalar multiplication on secp256k1, 256-bit left-to-right
double-and-add. -/
def secpMul (k : Nat) (pt : JacPt) : JacPt :=
  (List.range 256).foldl
    (fun acc i =>
      let acc2 := jacDouble acc
      if k.testBit (255 - i) then jacAdd acc2 pt else acc2)
    ⟨1, 1, 0⟩

/-- The 64-byte X||Y public key bytes for a private scalar k (the bytes
ethers hashes to form the address). -/
def secpPubBytes (k : Nat) : List Nat :=
  let pt := secpMul k ⟨secpGx, secpGy, 1⟩
  let zinv := powMod256 pt.z (secpP - 2) secpP
  let zinv2 := zinv * zinv % secpP
  let ax := pt.x * zinv2 % secpP
  let ay := pt.y * zinv2 % secpP * zinv % secpP
  beBytes 32 ax ++ beBytes 32 ay

/-! Section: Hex rendering and the EIP-55 checksummed address -/

/-- The lowercase hexadecimal digits. -/
def hexCharList : List Char := "0123456789abcdef".data

/-- The hexadecimal digit for a nibble. -/
def hexDigit (n : Nat) : Char := hexCharList.getD n '0'

/-- Lowercase hex characters of a byte sequence, two per byte. -/
def hexChars : List Nat → List Char
  | [] => []
  | x :: rest => hexDigit (x / 16) :: hexDigit (x % 16) :: hexChars rest

/-- The nibble sequence of a byte sequence, high nibble first. -/
def nibbles : List Nat → List Nat
  | [] => []
  | x :: rest => x / 16 :: x % 16 :: nibbles rest

/-- ASCII uppercasing of one character, the effect of JavaScript
toUpperCase on the characters that occur here. -/
def upperChar (c : Char) : Char :=
  if 'a' ≤ c ∧ c ≤ 'z' then Char.ofNat (c.toNat - 32) else c

/-- ASCII lowercasing of one character, the effect of JavaScript
toLowerCase on the characters that occur here. -/
def lowerChar (c : Char) : Char :=
  if 'A' ≤ c ∧ c ≤ 'Z' then Char.ofNat (c.toNat + 32) else c

/-- One character of the mixed-case checksum: uppercase when the
corresponding nibble of the hash digest is at least 8. -/
def checksumChar (nib : Nat) (c : Char) : Char :=
  if 8 ≤ nib then upperChar c else c

/-- The EIP-55 mixed-case transform of a 40-character lowercase hex
address body: hash the characters as ASCII with Keccak-256 and
uppercase each position whose hash nibble is at least 8. -/
def toChecksumChars (hex : List Char) : List Char :=
  List.zipWith checksumChar (nibbles (keccak256 (hex.map Char.toNat))) hex

/-- The checksummed 0x-prefixed address for the 64 public key bytes:
the last 20 bytes of their Keccak-256 hash, in mixed-case hex. -/
def ethAddress (pub : List Nat) : String :=
  String.mk ('0' :: 'x' :: toChecksumChars (hexChars ((keccak256 pub).drop 12)))

/-- An ethers Wallet as observed by generator.js: the 0x-prefixed
private key hex string, the public key bytes, and the checksummed
address. -/
structure EthWallet where
  privateKey : String
  publicKey : List Nat
  address : String

/-- Model of new Wallet(privateKey) from ethers: reject a scalar that
is zero or not below the curve order (InvalidKeyMaterial, never a
silent reduction), otherwise derive the public key and address. -/
def ethersWallet (keyBytes : List Nat) : Except GenError EthWallet :=
  let k := beToNat keyBytes
  if k = 0 ∨ secpN ≤ k then .error .invalidKeyMaterial
  else .ok
    { privateKey := String.mk ('0' :: 'x' :: hexChars keyBytes)
      publicKey := secpPubBytes k
      address := ethAddress (secpPubBytes k) }

/-! Section: SHA-512 (FIPS 180-4), needed by Ed25519 key derivation -/

/-- SHA-512 round constants. -/
def sha512K : List Nat :=
  [0x428A2F98D728AE22, 0x7137449123EF65CD, 0xB5C0FBCFEC4D3B2F, 0xE9B5DBA58189DBBC,
   0x3956C25BF348B538, 0x59F111F1B605D019, 0x923F82A4AF194F9B, 0xAB1C5ED5DA6D8118,
   0xD807AA98A3030242, 0x12835B0145706FBE, 0x243185BE4EE4B28C, 0x550C7DC3D5FFB4E2,
   0x72BE5D74F27B896F, 0x80DEB1FE3B1696B1, 0x9BDC06A725C71235, 0xC19BF174CF692694,
   0xE49B69C19EF14AD2, 0xEFBE4786384F25E3, 0x0FC19DC68B8CD5B5, 0x240CA1CC77AC9C65,
   0x2DE92C6F592B0275, 0x4A7484AA6EA6E483, 0x5CB0A9DCBD41FBD4, 0x76F988DA831153B5,
   0x983E5152EE66DFAB, 0xA831C66D2DB43210, 0xB00327C898FB213F, 0xBF597FC7BEEF0EE4,
   0xC6E00BF33DA88FC2, 0xD5A79147930AA725, 0x06CA6351E003826F, 0x142929670A0E6E70,
   0x27B70A8546D22FFC, 0x2E1B21385C26C926, 0x4D2C6DFC5AC42AED, 0x53380D139D95B3DF,
   0x650A73548BAF63DE, 0x766A0ABB3C77B2A8, 0x81C2C92E47EDAEE6, 0x92722C851482353B,
   0xA2BFE8A14CF10364, 0xA81A664BBC423001, 0xC24B8B70D0F89791, 0xC76C51A30654BE30,
   0xD192E819D6EF5218, 0xD69906245565A910, 0xF40E35855771202A, 0x106AA07032BBD1B8,
   0x19A4C116B8D2D0C8, 0x1E376C085141AB53, 0x2748774CDF8EEB99, 0x34B0BCB5E19B48A8,
   0x391C0CB3C5C95A63, 0x4ED8AA4AE3418ACB, 0x5B9CCA4F7763E373, 0x682E6FF3D6B2B8A3,
   0x748F82EE5DEFB2FC, 0x78A5636F43172F60, 0x84C87814A1F0AB72, 0x8CC702081A6439EC,
   0x90BEFFFA23631E28, 0xA4506CEBDE82BDE9, 0xBEF9A3F7B2C67915, 0xC67178F2E372532B,
   0xCA273ECEEA26619C, 0xD186B8C721C0C207, 0xEADA7DD6CDE0EB1E, 0xF57D4F7FEE6ED178,
   0x06F067AA72176FBA, 0x0A637DC5A2C898A6, 0x113F9804BEF90DAE, 0x1B710B35131C471B,
   0x28DB77F523047D84, 0x32CAAB7B40C72493, 0x3C9EBE0A15C9BEBC, 0x431D67C49C100D4C,
   0x4CC5D4BECB3E42B6, 0x597F299CFC657E2A, 0x5FCB6FAB3AD6FAEC, 0x6C44198C4A475817]

/-- SHA-512 initial hash value. -/
def sha512IV : Hash8 :=
  ⟨0x6A09E667F3BCC908, 0xBB67AE8584CAA73B, 0x3C6EF372FE94F82B, 0xA54FF53A5F1D36F1,
   0x510E527FADE682D1, 0x9B05688C2B3E6C1F, 0x1F83D9ABFB41BD6B, 0x5BE0CD19137E2179⟩

/-- SHA-512 message padding to a multiple of 128 bytes, with a 128-bit
big-endian bit length. -/
def sha512Pad (m : List Nat) : List Nat :=
  m ++ 128 :: List.replicate ((111 + 128 - m.length % 128) % 128) 0
    ++ beBytes 16 (8 * m.length)

/-- Message-schedule extension of the 16 chunk words to 80 words. -/
def sha512Extend (ws : List Nat) : List Nat :=
  (List.range 64).foldl
    (fun acc _ =>
      let n := acc.length
      let w15 := acc.getD (n - 15) 0
      let w2 := acc.getD (n - 2) 0
      let s0 := rotr64 1 w15 ^^^ rotr64 8 w15 ^^^ (w15 >>> 7)
      let s1 := rotr64 19 w2 ^^^ rotr64 61 w2 ^^^ (w2 >>> 6)
      acc ++ [(acc.getD (n - 16) 0 + s0 + acc.getD (n - 7) 0 + s1) % 18446744073709551616])
    ws

/-- One SHA-512 round. -/
def sha512Round (st : Hash8) (wk : Nat × Nat) : Hash8 :=
  let s1 := rotr64 14 st.e ^^^ rotr64 18 st.e ^^^ rotr64 41 st.e
  let ch := (st.e &&& st.f) ^^^ ((st.e ^^^ 18446744073709551615) &&& st.g)
  let temp1 := (st.h + s1 + ch + wk.2 + wk.1) % 18446744073709551616
  let s0 := rotr64 28 st.a ^^^ rotr64 34 st.a ^^^ rotr64 39 st.a
  let maj := (st.a &&& st.b) ^^^ (st.a &&& st.c) ^^^ (st.b &&& st.c)
  let temp2 := (s0 + maj) % 18446744073709551616
  ⟨(temp1 + temp2) % 18446744073709551616, st.a, st.b, st.c,
   (st.d + temp1) % 18446744073709551616, st.e, st.f, st.g⟩

/-- SHA-512 compression of one 128-byte chunk. -/
def sha512Compress (st : Hash8) (chunk : List Nat) : Hash8 :=
  let ws := sha512Extend ((List.range 16).map
    (fun i => beToNat ((chunk.drop (8 * i)).take 8)))
  let t := (List.zip ws sha512K).foldl sha512Round st
  ⟨(st.a + t.a) % 18446744073709551616, (st.b + t.b) % 18446744073709551616,
   (st.c + t.c) % 18446744073709551616, (st.d + t.d) % 18446744073709551616,
   (st.e + t.e) % 18446744073709551616, (st.f + t.f) % 18446744073709551616,
   (st.g + t.g) % 18446744073709551616, (st.h + t.h) % 18446744073709551616⟩

/-- Serialize the final state as 64 big-endian bytes. -/
def hash8BytesBE64 (st : Hash8) : List Nat :=
  beBytes 8 st.a ++ beBytes 8 st.b ++ beBytes 8 st.c ++ beBytes 8 st.d ++
  beBytes 8 st.e ++ beBytes 8 st.f ++ beBytes 8 st.g ++ beBytes 8 st.h

/-- SHA-512 of a byte sequence. -/
def sha512 (m : List Nat) : List Nat :=
  hash8BytesBE64 ((chunksOf 128 (sha512Pad m)).foldl sha512Compress sha512IV)

/-! Section: Ed25519 public key derivation (RFC 8032), the behavior of
getPublicKey from the noble ed25519 library used by sol-generator.js -/

/-- The edwards25519 field prime 2^255 - 19. -/
def edP : Nat := 2 ^ 255 - 19

/-- The edwards25519 curve constant d. -/
def edD : Nat :=
  37095705934669439343138083508754565189542113879843219016388785533085940283555

/-- A point in extended homogeneous coordinates (X : Y : Z : T). -/
structure EdPt where
  x : Nat
  y : Nat
  z : Nat
  t : Nat

/-- The edwards25519 base point in extended coordinates. -/
def edB : EdPt :=
  let bx := 15112221349535400772501151409588531511454012693041857206046113283949847762202
  let by2 := 46316835694926478169428394003475163141307993866256225615783033603165251855960
  ⟨bx, by2, 1, bx * by2 % edP⟩

/-- Complete point addition on the twisted Edwards curve (a = -1),
valid for doubling as well. -/
def edAdd (p q : EdPt) : EdPt :=
  let a := subMod p.y p.x edP * subMod q.y q.x edP % edP
  let b := (p.y + p.x) % edP * ((q.y + q.x) % edP) % edP
  let c := p.t * (2 * edD % edP) % edP * q.t % edP
  let d := p.z * (2 * q.z % edP) % edP
  let e := subMod b a edP
  let f := subMod d c edP
  let g := (d + c) % edP
  let h := (b + a) % edP
  ⟨e * f % edP, g * h % edP, f * g % edP, e * h % edP⟩

/-- Scalar multiplication on edwards25519, 256-bit left-to-right
double-and-add using the complete addition law. -/
def edMul (k : Nat) (pt : EdPt) : EdPt :=
  (List.range 256).foldl
    (fun acc i =>
      let acc2 := edAdd acc acc
      if k.testBit (255 - i) then edAdd acc2 pt else acc2)
    ⟨0, 1, 1, 0⟩

/-- Point compression: the 32 little-endian bytes of y with the parity
of x in the top bit. -/
def edCompress (pt : EdPt) : List Nat :=
  let zinv := powMod256 pt.z (edP - 2) edP
  let ax := pt.x * zinv % edP
  let ay := pt.y * zinv % edP
  leBytes 32 (ay + 2 ^ 255 * (ax % 2))

/-- RFC 8032 Ed25519 public key derivation from a 32-byte seed: clamp
the low half of SHA-512(seed) into a scalar and compress its multiple
of the base point.  This is noble ed25519 getPublicKey. -/
def ed25519Pub (seed : List Nat) : List Nat :=
  let h := sha512 seed
  let a := leToNat (h.take 32)
  let s := (a &&& (2 ^ 254 - 8)) + 2 ^ 254
  edCompress (edMul s edB)

/-! Section: Base-58 (the bs58 library used by sol-generator.js) -/

/-- The Bitcoin/Solana base-58 alphabet. -/
def b58Alphabet : List Char :=
  "123456789ABCDEFGHJKLMNPQRSTUVWXYZabcdefghijkmnopqrstuvwxyz".data

/-- The character for one base-58 digit. -/
def b58Char (d : Nat) : Char := b58Alphabet.getD d '1'

/-- Base-58 digits of a natural number, most significant first; zero
has no digits. -/
def natToB58 (n : Nat) : List Nat :=
  if h : n = 0 then [] else natToB58 (n / 58) ++ [n % 58]
decreasing_by exact Nat.div_lt_self (Nat.pos_of_ne_zero h) (by norm_num)

/-- Minimal big-endian bytes of a natural number; zero has no bytes. -/
def natToBytesBE (n : Nat) : List Nat :=
  if h : n = 0 then [] else natToBytesBE (n / 256) ++ [n % 256]
decreasing_by exact Nat.div_lt_self (Nat.pos_of_ne_zero h) (by norm_num)

/-- Value of a base-58 digit sequence, most significant first. -/
def b58DigitsToNat : List Nat → Nat
  | [] => 0
  | d :: rest => d * 58 ^ rest.length + b58DigitsToNat rest

/-- bs58.encode: each leading zero byte becomes the character 1, the
remaining value is written in base 58. -/
def bs58encode (b : List Nat) : String :=
  String.mk (List.replicate (b.takeWhile (fun x => x == 0)).length '1'
    ++ (natToB58 (beToNat b)).map b58Char)

/-- The index of a character in a list of characters. -/
def lookupIdx (c : Char) : List Char → Option Nat
  | [] => none
  | a :: rest => if a = c then some 0 else (lookupIdx c rest).map (· + 1)

/-- The index of a character in the base-58 alphabet. -/
def b58CharVal (c : Char) : Option Nat := lookupIdx c b58Alphabet

/-- Values of every character of a candidate base-58 string, or none
if some character is not in the alphabet. -/
def b58Vals : List Char → Option (List Nat)
  | [] => some []
  | c :: cs =>
    match b58CharVal c, b58Vals cs with
    | some v, some vs => some (v :: vs)
    | _, _ => none

/-- bs58.decode: leading 1 characters become zero bytes, the remaining
value is read in base 58 and written as minimal big-endian bytes. -/
def bs58decode (s : String) : Option (List Nat) :=
  (b58Vals s.data).map (fun ds =>
    List.replicate (s.data.takeWhile (fun c => c == '1')).length 0
      ++ natToBytesBE (b58DigitsToNat ds))

/-! Section: The EVM pipeline (generator.js) -/

namespace EVM

/-- generator.js lines 127-129: the combined salt is the SHA-256 digest
of the concatenation of the user salt and the application salt. -/
def combinedSalt (userSalt applicationSalt : List Nat) : List Nat :=
  sha256 (userSalt ++ applicationSalt)

/-- generator.js line 139: the scrypt cost factor N = 2^costParameter. -/
def costN (costParameter : Nat) : Nat := 2 ^ costParameter

/-- generator.js lines 149-154: the 32-byte key derived by
crypto.scryptSync with N = 2^costParameter, r = 8, p = 1. -/
def derivedKey (password userSalt applicationSalt : List Nat)
    (costParameter : Nat) : Except GenError (List Nat) :=
  scryptSync password (combinedSalt userSalt applicationSalt) 32
    (costN costParameter) 8 1

/-- The value generator.js returns: the ethers wallet and the echoed
effective cost factor. -/
structure Result where
  wallet : EthWallet
  actualN : Nat

/-- generator.js generateWalletFromPassword: derive the key with
scrypt over the combined salt, then build new Wallet from its
0x-prefixed hex. -/
def generateWalletFromPassword (password userSalt applicationSalt : List Nat)
    (costParameter : Nat) : Except GenError Result :=
  match derivedKey password userSalt applicationSalt costParameter with
  | .error e => .error e
  | .ok dk =>
    match ethersWallet dk with
    | .error e => .error e
    | .ok w => .ok ⟨w, costN costParameter⟩

end EVM

/-! Section: The Solana pipeline (sol-generator.js) -/

namespace Sol

/-- sol-generator.js lines 128-130: the combined salt, identical to the
EVM pipeline. -/
def combinedSalt (userSalt applicationSalt : List Nat) : List Nat :=
  sha256 (userSalt ++ applicationSalt)

/-- sol-generator.js line 140: the scrypt cost factor. -/
def costN (costParameter : Nat) : Nat := 2 ^ costParameter

/-- sol-generator.js lines 150-155: the 32-byte scrypt-derived key,
identical to the EVM pipeline. -/
def derivedKey (password userSalt applicationSalt : List Nat)
    (costParameter : Nat) : Except GenError (List Nat) :=
  scryptSync password (combinedSalt userSalt applicationSalt) 32
    (costN costParameter) 8 1

/-- The account part of the value sol-generator.js returns: the base-58
encoded 64-byte combined secret blob, the base-58 public key, and the
address, which is the base-58 public key itself. -/
structure Account where
  privateKey : String
  publicKey : String
  address : String

/-- sol-generator.js lines 157-177: derive the Ed25519 public key from
the seed, encode seed(32) || publicKey(32) in base 58 as the private
key export, and use the base-58 public key as the address. -/
def account (derivedKey : List Nat) : Account :=
  let publicKeyBytes := ed25519Pub derivedKey
  let publicKey := bs58encode publicKeyBytes
  { privateKey := bs58encode (derivedKey ++ publicKeyBytes)
    publicKey := publicKey
    address := publicKey }

/-- The full return value, with the echoed effective cost factor. -/
structure Result where
  account : Account
  actualN : Nat

/-- sol-generator.js generateWalletFromPassword. -/
def generateWalletFromPassword (password userSalt applicationSalt : List Nat)
    (costParameter : Nat) : Except GenError Result :=
  match derivedKey password userSalt applicationSalt costParameter with
  | .error e => .error e
  | .ok dk => .ok ⟨account dk, costN costParameter⟩

end Sol

/-! Section: The cost-parameter input (getNumber in both files)

getNumber reads a line, applies parseInt(answer.trim(), 10), and exits
with an error when the result is NaN or not positive.  ECMAScript
parseInt with radix 10 skips whitespace, accepts an optional sign,
reads the longest prefix of decimal digits, ignores everything after
it, and yields NaN only when no digit was read. -/

/-- ASCII whitespace as trimmed by JavaScript trim on the inputs that
occur here. -/
def isWsChar (c : Char) : Bool :=
  c == ' ' || c == '\t' || c == '\n' || c == '\r' || c == '\x0b' || c == '\x0c'

/-- JavaScript String.prototype.trim (ASCII model). -/
def jsTrim (s : List Char) : List Char :=
  ((s.dropWhile isWsChar).reverse.dropWhile isWsChar).reverse

/-- Value of a decimal digit sequence. -/
def decDigitsToNat (ds : List Char) : Nat :=
  ds.foldl (fun acc c => acc * 10 + (c.toNat - 48)) 0

/-- ECMAScript parseInt with radix 10: optional sign, then the longest
digit prefix; none models NaN. -/
def jsParseInt10 (s : List Char) : Option Int :=
  let signed : Int × List Char :=
    match s with
    | '-' :: r => (-1, r)
    | '+' :: r => (1, r)
    | r => (1, r)
  let digits := signed.2.takeWhile Char.isDigit
  if digits.isEmpty then none
  else some (signed.1 * (decDigitsToNat digits : Int))

/-- getNumber from both files: parse the trimmed answer in base 10 and
reject NaN or a non-positive value; the spec calls that rejection
InvalidParameter. -/
def getNumber (answer : String) : Except GenError Int :=
  match jsParseInt10 (jsTrim answer.data) with
  | none => .error .invalidParameter
  | some num => if num ≤ 0 then .error .invalidParameter else .ok num

/-- The derivation-engine step shared verbatim by both files
(generator.js lines 139-154, sol-generator.js lines 140-155),
abstracted over the salt it is applied to: crypto.scryptSync of the
password and salt with keyLength 32, N = 2^costParameter, r = 8,
p = 1. -/
def deriveSeed (password salt : List Nat) (costParameter : Nat) :
    Except GenError (List Nat) :=
  scryptSync password salt 32 (2 ^ costParameter) 8 1

/-- Lowercasing of a string, character by character (JavaScript
toLowerCase on the ASCII strings that occur here); the transform the
checksum-idempotence property applies to a produced address. -/
def lowerStr (s : String) : String := String.mk (s.data.map lowerChar)

/-- Re-application of the mixed-case checksum algorithm to a lowercased
0x-prefixed address string: hash the 40-character hex body and restore
the case prescribed by the hash nibbles. -/
def reChecksum (s : String) : String :=
  String.mk ('0' :: 'x' :: toChecksumChars (s.data.drop 2))

/-- Whether an Except value is a success. -/
def exceptIsOk : Except ε α → Bool
  | .ok _ => true
  | .error _ => false


/-! Section: Supporting lemmas -/

theorem beBytes_length (k n : Nat) : (beBytes k n).length = k := by
  simp [beBytes]

theorem leBytes_length (k n : Nat) : (leBytes k n).length = k := by
  simp [leBytes]

theorem sha256_length (m : List Nat) : (sha256 m).length = 32 := by
  simp [sha256, hash8BytesBE, beBytes_length]

theorem keccak256_length (m : List Nat) : (keccak256 m).length = 32 := by
  simp [keccak256]

theorem ed25519Pub_length (seed : List Nat) : (ed25519Pub seed).length = 32 := by
  simp [ed25519Pub, edCompress, leBytes_length]

theorem hmacSha256_length (key msg : List Nat) :
    (hmacSha256 key msg).length = 32 := by
  simp [hmacSha256, sha256_length]

theorem pbkdf2F_fold_length (pw : List Nat) (l : List Nat) :
    ∀ acc u : List Nat, acc.length = 32 → u.length = 32 →
    ((l.foldl (fun ac _ =>
        let u2 := hmacSha256 pw ac.2
        (List.zipWith Nat.xor ac.1 u2, u2)) (acc, u)).1).length = 32 := by
  induction l with
  | nil => intro acc u ha _; simpa using ha
  | cons x xs ih =>
    intro acc u ha hu
    simp only [List.foldl_cons]
    exact ih _ _ (by simp [ha, hmacSha256_length]) (by simp [hmacSha256_length])

theorem pbkdf2F_length (pw s : List Nat) (c i : Nat) :
    (pbkdf2F pw s c i).length = 32 := by
  unfold pbkdf2F
  exact pbkdf2F_fold_length pw _ _ _ (hmacSha256_length _ _) (hmacSha256_length _ _)

theorem flatten_const_length (f : Nat → List Nat) (k : Nat)
    (hf : ∀ i, (f i).length = 32) :
    (((List.range k).map f).flatten).length = 32 * k := by
  induction k with
  | zero => simp
  | succ n ih =>
    rw [List.range_succ]
    simp [ih, hf]
    omega

theorem pbkdf2_length (pw s : List Nat) (c dkLen : Nat) :
    (pbkdf2 pw s c dkLen).length = dkLen := by
  unfold pbkdf2
  rw [List.length_take, flatten_const_length _ _ (fun i => pbkdf2F_length pw s c (i + 1))]
  have h1 := Nat.div_add_mod (dkLen + 31) 32
  have h2 := Nat.mod_lt (dkLen + 31) (show 0 < 32 by norm_num)
  omega

theorem scrypt_length (pw salt : List Nat) (n r p dkLen : Nat) :
    (scrypt pw salt n r p dkLen).length = dkLen := by
  unfold scrypt
  exact pbkdf2_length _ _ _ _

theorem pow2_land_pred (e : Nat) : 2 ^ e &&& (2 ^ e - 1) = 0 := by
  apply Nat.eq_of_testBit_eq
  intro i
  rw [Nat.testBit_land, Nat.testBit_two_pow, Nat.testBit_two_pow_sub_one]
  rcases Nat.lt_or_ge i e with h | h
  · simp [Nat.ne_of_gt h]
  · simp [Nat.not_lt.mpr h]

theorem scryptSync_ok (pw salt : List Nat) (kl e : Nat) (h1 : 1 ≤ e)
    (h2 : 128 * 2 ^ e * 8 ≤ 33554432) :
    scryptSync pw salt kl (2 ^ e) 8 1 = .ok (scrypt pw salt (2 ^ e) 8 1 kl) := by
  unfold scryptSync
  rw [if_neg, if_neg]
  · omega
  · rw [not_or]
    constructor
    · have : 2 ^ 1 ≤ 2 ^ e := Nat.pow_le_pow_right (by norm_num) h1
      omega
    · simp [pow2_land_pred]

theorem scryptSync_mem_exceeded (pw salt : List Nat) (kl e : Nat)
    (h : 33554432 < 128 * 2 ^ e * 8) :
    scryptSync pw salt kl (2 ^ e) 8 1 = .error .resourceLimitExceeded := by
  have hx : 32768 < 2 ^ e := by omega
  unfold scryptSync
  rw [if_neg, if_pos]
  · omega
  · rw [not_or]
    exact ⟨by omega, by simp [pow2_land_pred]⟩

/-! Section: Claim theorems -/

/-- C1: the derivation pipelines are pure functions of the quadruple
(password, userSalt, applicationSalt, exponent): two runs on identical
inputs yield the same seed and the same account, with no randomness or
hidden state anywhere in either pipeline. -/
theorem derivation_deterministic (password userSalt applicationSalt : List Nat)
    (e : Nat) (r1 r2 : Except GenError EVM.Result)
    (s1 s2 : Except GenError Sol.Result)
    (h1 : r1 = EVM.generateWalletFromPassword password userSalt applicationSalt e)
    (h2 : r2 = EVM.generateWalletFromPassword password userSalt applicationSalt e)
    (h3 : s1 = Sol.generateWalletFromPassword password userSalt applicationSalt e)
    (h4 : s2 = Sol.generateWalletFromPassword password userSalt applicationSalt e) :
    r1 = r2 ∧ s1 = s2 := by
  subst h1 h2 h3 h4
  exact ⟨rfl, rfl⟩

theorem derivation_deterministic_witness :
    EVM.generateWalletFromPassword [] [] [] 1 = EVM.generateWalletFromPassword [] [] [] 1 ∧
    Sol.generateWalletFromPassword [] [] [] 1 = Sol.generateWalletFromPassword [] [] [] 1 :=
  derivation_deterministic [] [] [] 1 _ _ _ _ rfl rfl rfl rfl

/-- C2: for every password, 32-byte salt and valid cost exponent, the
derivation step succeeds with exactly the RFC 7914 scrypt output for
N = 2^e, r = 8, p = 1 and requested length 32, the result is exactly
32 bytes, and both pipelines invoke exactly this step on their
combined salt. -/
theorem derived_seed_is_scrypt (password salt : List Nat) (e : Nat)
    (hs : salt.length = 32) (h1 : 1 ≤ e)
    (h2 : 128 * 2 ^ e * 8 ≤ 33554432) :
    deriveSeed password salt e = .ok (scrypt password salt (2 ^ e) 8 1 32) ∧
    (scrypt password salt (2 ^ e) 8 1 32).length = 32 ∧
    (∀ u a : List Nat,
      EVM.derivedKey password u a e = deriveSeed password (EVM.combinedSalt u a) e ∧
      Sol.derivedKey password u a e = deriveSeed password (Sol.combinedSalt u a) e) :=
  ⟨scryptSync_ok password salt 32 e h1 h2, scrypt_length _ _ _ _ _ _,
   fun _ _ => ⟨rfl, rfl⟩⟩

theorem derived_seed_is_scrypt_witness :
    deriveSeed [] (List.replicate 32 0) 1 =
      .ok (scrypt [] (List.replicate 32 0) (2 ^ 1) 8 1 32) ∧
    (scrypt [] (List.replicate 32 0) (2 ^ 1) 8 1 32).length = 32 ∧
    (∀ u a : List Nat,
      EVM.derivedKey [] u a 1 = deriveSeed [] (EVM.combinedSalt u a) 1 ∧
      Sol.derivedKey [] u a 1 = deriveSeed [] (Sol.combinedSalt u a) 1) :=
  derived_seed_is_scrypt [] (List.replicate 32 0) 1 (by simp) (by norm_num) (by norm_num)

/-- C3: for all byte sequences, empty ones included, the combined salt
of either pipeline is exactly 32 bytes and is the SHA-256 digest of the
direct concatenation userSalt || applicationSalt; the combiner is a
total function with no failure modes. -/
theorem combined_salt_spec (userSalt applicationSalt : List Nat) :
    (EVM.combinedSalt userSalt applicationSalt).length = 32 ∧
    (Sol.combinedSalt userSalt applicationSalt).length = 32 ∧
    EVM.combinedSalt userSalt applicationSalt = sha256 (userSalt ++ applicationSalt) ∧
    Sol.combinedSalt userSalt applicationSalt = sha256 (userSalt ++ applicationSalt) :=
  ⟨sha256_length _, sha256_length _, rfl, rfl⟩

/-- C9: the two chain pipelines agree on their shared prefix: identical
inputs give the same combined salt and the same derived-seed outcome
before account materialization. -/
theorem pipelines_shared_core (password userSalt applicationSalt : List Nat)
    (e : Nat) :
    EVM.combinedSalt userSalt applicationSalt = Sol.combinedSalt userSalt applicationSalt ∧
    EVM.derivedKey password userSalt applicationSalt e =
      Sol.derivedKey password userSalt applicationSalt e :=
  ⟨rfl, rfl⟩

/-- C6: a cost exponent whose memory requirement 128 * 2^e * 8 exceeds
the configured 32 MiB ceiling makes both pipelines fail with
ResourceLimitExceeded; N is passed to scrypt as exactly 2^e, never
truncated or clamped to fit. -/
theorem resource_ceiling_enforced (password userSalt applicationSalt : List Nat)
    (e : Nat) (h : 33554432 < 128 * 2 ^ e * 8) :
    EVM.generateWalletFromPassword password userSalt applicationSalt e =
      .error .resourceLimitExceeded ∧
    Sol.generateWalletFromPassword password userSalt applicationSalt e =
      .error .resourceLimitExceeded := by
  have he : scryptSync password (EVM.combinedSalt userSalt applicationSalt) 32
      (2 ^ e) 8 1 = .error .resourceLimitExceeded :=
    scryptSync_mem_exceeded _ _ _ _ h
  have hs : scryptSync password (Sol.combinedSalt userSalt applicationSalt) 32
      (2 ^ e) 8 1 = .error .resourceLimitExceeded :=
    scryptSync_mem_exceeded _ _ _ _ h
  constructor
  · simp [EVM.generateWalletFromPassword, EVM.derivedKey, EVM.costN, he]
  · simp [Sol.generateWalletFromPassword, Sol.derivedKey, Sol.costN, hs]

theorem resource_ceiling_enforced_witness :
    EVM.generateWalletFromPassword [] [] [] 16 = .error .resourceLimitExceeded ∧
    Sol.generateWalletFromPassword [] [] [] 16 = .error .resourceLimitExceeded :=
  resource_ceiling_enforced [] [] [] 16 (by norm_num)

/-- C4 fails as stated: the combiner hashes the bare concatenation, so
two different salt pairs whose concatenations coincide collide.  With
a = 0x78 and b = 0x78 0x78 we have a ≠ b yet a || b = b || a, hence
combine(a, b) = combine(b, a). -/
theorem salt_order_counterexample :
    ([120] : List Nat) ≠ [120, 120] ∧
    EVM.combinedSalt [120] [120, 120] = EVM.combinedSalt [120, 120] [120] :=
  ⟨by decide, rfl⟩

/-- C4 amended: order sensitivity holds only up to concatenation:
combine(a, b) = combine(b, a) whenever a || b = b || a, which can
happen with a ≠ b; when the concatenations differ the two hash inputs
differ and the digests differ barring a SHA-256 collision, as witnessed
concretely by combine(0x00, 0x01) ≠ combine(0x01, 0x00). -/
theorem salt_order_amended :
    (∀ a b : List Nat, a ++ b = b ++ a →
      EVM.combinedSalt a b = EVM.combinedSalt b a) ∧
    EVM.combinedSalt [0] [1] ≠ EVM.combinedSalt [1] [0] := by
  constructor
  · intro a b h
    unfold EVM.combinedSalt
    rw [h]
  · decide

theorem salt_order_amended_witness :
    EVM.combinedSalt [] [] = EVM.combinedSalt [] [] :=
  salt_order_amended.1 [] [] rfl

/-- C5 fails as stated: a non-integer input string is not rejected;
parseInt truncates it to its leading digit prefix, so the input 3.7 is
accepted as the exponent 3 instead of failing with InvalidParameter. -/
theorem cost_input_counterexample : getNumber "3.7" = .ok 3 := rfl

/-- C5 amended: getNumber fails with InvalidParameter exactly when
parseInt of the trimmed input is NaN (no leading digits after an
optional sign) or the parsed value is not positive; any input parsing
to a positive integer is accepted with that value, so fractional
suffixes are truncated by parseInt rather than rejected. -/
theorem cost_input_validation (s : String) :
    (getNumber s = .error .invalidParameter ↔
      jsParseInt10 (jsTrim s.data) = none ∨
      ∃ n : Int, jsParseInt10 (jsTrim s.data) = some n ∧ n ≤ 0) ∧
    (∀ n : Int, jsParseInt10 (jsTrim s.data) = some n → 0 < n →
      getNumber s = .ok n) := by
  constructor
  · unfold getNumber
    cases h : jsParseInt10 (jsTrim s.data) with
    | none => simp
    | some num =>
      by_cases hn : num ≤ 0
      · simp [hn]
      · simp [hn]
  · intro n hn hpos
    unfold getNumber
    rw [hn]
    have hn2 : ¬n ≤ 0 := by omega
    simp [hn2]

theorem cost_input_validation_witness :
    getNumber "0" = .error .invalidParameter ∧ getNumber "5" = .ok 5 :=
  ⟨(cost_input_validation "0").1.mpr (Or.inr ⟨0, rfl, by norm_num⟩),
   (cost_input_validation "5").2 5 rfl (by norm_num)⟩

/-- C7: the secp256k1 materializer rejects a seed whose big-endian
value is zero or at least the curve order with InvalidKeyMaterial and
exposes no account; an in-range seed is accepted and the stored private
key is exactly the 0x-prefixed hex of the seed bytes, never a value
reduced modulo the order. -/
theorem secp_key_validation (keyBytes : List Nat) (hl : keyBytes.length = 32) :
    (beToNat keyBytes = 0 ∨ secpN ≤ beToNat keyBytes →
      ethersWallet keyBytes = .error .invalidKeyMaterial) ∧
    (beToNat keyBytes ≠ 0 → beToNat keyBytes < secpN →
      ∃ w, ethersWallet keyBytes = .ok w ∧
        w.privateKey = String.mk ('0' :: 'x' :: hexChars keyBytes)) := by
  constructor
  · intro h
    unfold ethersWallet
    rw [if_pos h]
  · intro h1 h2
    unfold ethersWallet
    rw [if_neg]
    · exact ⟨_, rfl, rfl⟩
    · rw [not_or]
      exact ⟨h1, by omega⟩

theorem secp_key_validation_witness :
    (List.replicate 31 (0 : Nat) ++ [1]).length = 32 ∧
    beToNat (List.replicate 31 (0 : Nat) ++ [1]) ≠ 0 ∧
    beToNat (List.replicate 31 (0 : Nat) ++ [1]) < secpN ∧
    ∃ w, ethersWallet (List.replicate 31 (0 : Nat) ++ [1]) = .ok w ∧
      w.privateKey =
        String.mk ('0' :: 'x' :: hexChars (List.replicate 31 (0 : Nat) ++ [1])) :=
  ⟨by decide, by decide, by decide,
   (secp_key_validation _ (by decide)).2 (by decide) (by decide)⟩

theorem hexDigit_mem (n : Nat) : hexDigit n ∈ hexCharList := by
  unfold hexDigit
  rcases Nat.lt_or_ge n 16 with h | h
  · interval_cases n <;> decide
  · rw [List.getD_eq_default]
    · decide
    · have : hexCharList.length = 16 := by decide
      omega

theorem mem_hexChars (b : List Nat) (c : Char) (hc : c ∈ hexChars b) :
    c ∈ hexCharList := by
  induction b with
  | nil => simp [hexChars] at hc
  | cons x rest ih =>
    rw [hexChars, List.mem_cons, List.mem_cons] at hc
    rcases hc with h | h | h
    · exact h ▸ hexDigit_mem _
    · exact h ▸ hexDigit_mem _
    · exact ih h

theorem lower_checksum_char (c : Char) (hc : c ∈ hexCharList) (nib : Nat) :
    lowerChar (checksumChar nib c) = c := by
  unfold checksumChar
  by_cases h : 8 ≤ nib
  · rw [if_pos h]
    exact (by decide : ∀ x ∈ hexCharList, lowerChar (upperChar x) = x) c hc
  · rw [if_neg h]
    exact (by decide : ∀ x ∈ hexCharList, lowerChar x = x) c hc

theorem map_lower_zipWith_checksum (cs : List Char) :
    ∀ ns : List Nat, (∀ c ∈ cs, c ∈ hexCharList) → cs.length ≤ ns.length →
    (List.zipWith checksumChar ns cs).map lowerChar = cs := by
  induction cs with
  | nil => simp
  | cons c rest ih =>
    intro ns hmem hlen
    cases ns with
    | nil => simp at hlen
    | cons n ns2 =>
      rw [List.zipWith_cons_cons, List.map_cons]
      rw [lower_checksum_char c (hmem c (by simp)) n]
      rw [ih ns2 (fun x hx => hmem x (by simp [hx])) (by simpa using hlen)]

theorem hexChars_length (b : List Nat) : (hexChars b).length = 2 * b.length := by
  induction b with
  | nil => simp [hexChars]
  | cons x rest ih =>
    rw [hexChars]
    simp [ih]
    omega

theorem nibbles_length (b : List Nat) : (nibbles b).length = 2 * b.length := by
  induction b with
  | nil => simp [nibbles]
  | cons x rest ih =>
    rw [nibbles]
    simp [ih]
    omega

theorem recheck_ethAddress (pub : List Nat) :
    reChecksum (lowerStr (ethAddress pub)) = ethAddress pub := by
  have hlen : (hexChars ((keccak256 pub).drop 12)).length ≤
      (nibbles (keccak256 ((hexChars ((keccak256 pub).drop 12)).map Char.toNat))).length := by
    rw [hexChars_length, nibbles_length, keccak256_length, List.length_drop,
      keccak256_length]
    omega
  have hmap := map_lower_zipWith_checksum (hexChars ((keccak256 pub).drop 12))
    (nibbles (keccak256 ((hexChars ((keccak256 pub).drop 12)).map Char.toNat)))
    (fun c hc => mem_hexChars _ c hc) hlen
  unfold ethAddress lowerStr reChecksum
  simp only [List.map_cons, List.drop_succ_cons, List.drop_zero]
  unfold toChecksumChars
  rw [hmap]

/-- C10: on every account the secp256k1 pipeline produces, the
mixed-case checksum transform is idempotent: lowercasing the address
and re-applying the checksum algorithm reproduces the address. -/
theorem checksum_idempotent (keyBytes : List Nat) (w : EthWallet)
    (hw : ethersWallet keyBytes = .ok w) :
    reChecksum (lowerStr w.address) = w.address := by
  simp only [ethersWallet] at hw
  split at hw
  · exact absurd hw (by simp)
  · injection hw with h
    subst h
    exact recheck_ethAddress _

theorem checksum_idempotent_witness :
    ∃ w, ethersWallet (List.replicate 31 (0 : Nat) ++ [1]) = .ok w ∧
      reChecksum (lowerStr w.address) = w.address := by
  cases hw : ethersWallet (List.replicate 31 (0 : Nat) ++ [1]) with
  | error e =>
    have hok : exceptIsOk (ethersWallet (List.replicate 31 (0 : Nat) ++ [1])) = true := by
      decide
    rw [hw] at hok
    exact absurd hok (by simp [exceptIsOk])
  | ok w => exact ⟨w, rfl, checksum_idempotent _ w hw⟩

theorem natToB58_digits_lt (n : Nat) : ∀ d ∈ natToB58 n, d < 58 := by
  induction n using Nat.strong_induction_on with
  | _ n ih =>
    intro d hd
    rw [natToB58] at hd
    by_cases h : n = 0
    · simp [h] at hd
    · rw [dif_neg h, List.mem_append] at hd
      rcases hd with hd | hd
      · exact ih (n / 58) (Nat.div_lt_self (Nat.pos_of_ne_zero h) (by norm_num)) d hd
      · simp at hd
        subst hd
        exact Nat.mod_lt _ (by norm_num)

theorem b58DigitsToNat_append_single (xs : List Nat) (d : Nat) :
    b58DigitsToNat (xs ++ [d]) = 58 * b58DigitsToNat xs + d := by
  induction xs with
  | nil => simp [b58DigitsToNat]
  | cons x rest ih =>
    calc b58DigitsToNat ((x :: rest) ++ [d])
        = x * 58 ^ (rest ++ [d]).length + b58DigitsToNat (rest ++ [d]) := rfl
      _ = x * 58 ^ (rest.length + 1) + (58 * b58DigitsToNat rest + d) := by
          rw [ih, List.length_append, List.length_cons, List.length_nil]
      _ = 58 * (x * 58 ^ rest.length + b58DigitsToNat rest) + d := by ring
      _ = 58 * b58DigitsToNat (x :: rest) + d := rfl

theorem b58_roundtrip_nat (n : Nat) : b58DigitsToNat (natToB58 n) = n := by
  induction n using Nat.strong_induction_on with
  | _ n ih =>
    rw [natToB58]
    by_cases h : n = 0
    · simp [h, b58DigitsToNat]
    · rw [dif_neg h, b58DigitsToNat_append_single,
        ih (n / 58) (Nat.div_lt_self (Nat.pos_of_ne_zero h) (by norm_num))]
      omega

theorem natToB58_head : ∀ n : Nat, n ≠ 0 →
    ∃ d ds, natToB58 n = d :: ds ∧ d ≠ 0 ∧ d < 58 := by
  intro n
  induction n using Nat.strong_induction_on with
  | _ n ih =>
    intro h
    rw [natToB58, dif_neg h]
    by_cases hq : n / 58 = 0
    · refine ⟨n % 58, [], by simp [natToB58, hq], ?_, Nat.mod_lt _ (by norm_num)⟩
      have hn : n < 58 := by omega
      rw [Nat.mod_eq_of_lt hn]
      exact h
    · obtain ⟨d, ds, heq, hd0, hd58⟩ :=
        ih (n / 58) (Nat.div_lt_self (Nat.pos_of_ne_zero h) (by norm_num)) hq
      exact ⟨d, ds ++ [n % 58], by rw [heq]; simp, hd0, hd58⟩

theorem beToNat_append_single (xs : List Nat) (y : Nat) :
    beToNat (xs ++ [y]) = 256 * beToNat xs + y := by
  induction xs with
  | nil => simp [beToNat]
  | cons x rest ih =>
    calc beToNat ((x :: rest) ++ [y])
        = x * 256 ^ (rest ++ [y]).length + beToNat (rest ++ [y]) := rfl
      _ = x * 256 ^ (rest.length + 1) + (256 * beToNat rest + y) := by
          rw [ih, List.length_append, List.length_cons, List.length_nil]
      _ = 256 * (x * 256 ^ rest.length + beToNat rest) + y := by ring
      _ = 256 * beToNat (x :: rest) + y := rfl

theorem beToNat_cons_pos (x : Nat) (rest : List Nat) (hx : x ≠ 0) :
    beToNat (x :: rest) ≠ 0 := by
  have : 1 ≤ 256 ^ rest.length := Nat.one_le_pow _ _ (by norm_num)
  simp only [beToNat]
  have : 1 * (256 ^ rest.length) ≤ x * 256 ^ rest.length :=
    Nat.mul_le_mul_right _ (Nat.pos_of_ne_zero hx)
  omega

theorem natToBytesBE_beToNat (rest : List Nat) :
    ∀ x, x ≠ 0 → x < 256 → (∀ b ∈ rest, b < 256) →
    natToBytesBE (beToNat (x :: rest)) = x :: rest := by
  induction rest using List.reverseRecOn with
  | nil =>
    intro x hx hxlt _
    have h0 : beToNat [x] = x := by simp [beToNat]
    rw [h0, natToBytesBE, dif_neg hx, Nat.div_eq_of_lt hxlt,
      Nat.mod_eq_of_lt hxlt, natToBytesBE]
    simp
  | append_singleton ys y ihy =>
    intro x hx hxlt hmem
    have hrw : (x :: (ys ++ [y])) = (x :: ys) ++ [y] := by simp
    rw [hrw, beToNat_append_single]
    have hv : beToNat (x :: ys) ≠ 0 := beToNat_cons_pos x ys hx
    have hy : y < 256 := hmem y (by simp)
    have hne : 256 * beToNat (x :: ys) + y ≠ 0 := by
      have := Nat.pos_of_ne_zero hv
      omega
    rw [natToBytesBE, dif_neg hne]
    have hdiv : (256 * beToNat (x :: ys) + y) / 256 = beToNat (x :: ys) := by
      omega
    have hmod : (256 * beToNat (x :: ys) + y) % 256 = y := by
      omega
    rw [hdiv, hmod, ihy x hx hxlt (fun b hb => hmem b (by simp [hb]))]

theorem beToNat_replicate_zero_append (z : Nat) (l : List Nat) :
    beToNat (List.replicate z 0 ++ l) = beToNat l := by
  induction z with
  | zero => simp
  | succ n ih => simp [List.replicate_succ, beToNat, ih]

theorem b58DigitsToNat_replicate_zero_append (z : Nat) (l : List Nat) :
    b58DigitsToNat (List.replicate z 0 ++ l) = b58DigitsToNat l := by
  induction z with
  | zero => simp
  | succ n ih => simp [List.replicate_succ, b58DigitsToNat, ih]

theorem b58Vals_append (xs ys : List Char) (vs ws : List Nat)
    (h1 : b58Vals xs = some vs) (h2 : b58Vals ys = some ws) :
    b58Vals (xs ++ ys) = some (vs ++ ws) := by
  induction xs generalizing vs with
  | nil =>
    simp [b58Vals] at h1
    subst h1
    simpa using h2
  | cons c cs ih =>
    rw [b58Vals] at h1
    rw [List.cons_append, b58Vals]
    cases hc : b58CharVal c with
    | none => rw [hc] at h1; simp at h1
    | some v =>
      rw [hc] at h1
      cases hcs : b58Vals cs with
      | none => rw [hcs] at h1; simp at h1
      | some vs2 =>
        rw [hcs] at h1
        simp at h1
        subst h1
        rw [ih vs2 hcs]
        simp

theorem b58Vals_replicate_one (z : Nat) :
    b58Vals (List.replicate z '1') = some (List.replicate z 0) := by
  induction z with
  | zero => simp [b58Vals]
  | succ n ih =>
    rw [List.replicate_succ, List.replicate_succ, b58Vals, ih]
    have h1 : b58CharVal '1' = some 0 := by decide
    rw [h1]

theorem b58Vals_map_b58Char (ds : List Nat) (hd : ∀ d ∈ ds, d < 58) :
    b58Vals (ds.map b58Char) = some ds := by
  induction ds with
  | nil => simp [b58Vals]
  | cons d rest ih =>
    rw [List.map_cons, b58Vals,
      (by decide : ∀ x, x < 58 → b58CharVal (b58Char x) = some x) d
        (hd d (by simp)),
      ih (fun x hx => hd x (by simp [hx]))]

theorem takeWhile_replicate_self (p : α → Bool) (c : α) (hc : p c = true)
    (z : Nat) : List.takeWhile p (List.replicate z c) = List.replicate z c := by
  induction z with
  | zero => simp
  | succ n ih => rw [List.replicate_succ, List.takeWhile_cons_of_pos hc, ih]

theorem takeWhile_replicate_append (p : α → Bool) (c x : α)
    (xs : List α) (hc : p c = true) (hx : p x = false) (z : Nat) :
    List.takeWhile p (List.replicate z c ++ x :: xs) = List.replicate z c := by
  have hx2 : ¬p x = true := by simp [hx]
  induction z with
  | zero =>
    rw [List.replicate_zero, List.nil_append]
    exact List.takeWhile_cons_of_neg hx2
  | succ n ih =>
    rw [List.replicate_succ, List.cons_append,
      List.takeWhile_cons_of_pos hc, ih]

theorem string_mk_data (l : List Char) : (String.mk l).data = l := rfl

theorem dropWhile_head_false (p : Nat → Bool) (l : List Nat) (x : Nat)
    (xs : List Nat) (h : l.dropWhile p = x :: xs) : p x = false := by
  induction l with
  | nil => simp [List.dropWhile] at h
  | cons a rest ih =>
    cases ha : p a with
    | true =>
      simp only [List.dropWhile, ha] at h
      exact ih h
    | false =>
      simp only [List.dropWhile, ha] at h
      injection h with h1 h2
      subst h1
      exact ha

theorem takeWhile_zero_replicate (b : List Nat) :
    b.takeWhile (fun x => x == 0) =
      List.replicate (b.takeWhile (fun x => x == 0)).length 0 := by
  induction b with
  | nil => simp
  | cons x rest ih =>
    by_cases hx : x = 0
    · subst hx
      rw [List.takeWhile_cons_of_pos (by simp), List.length_cons, List.replicate_succ]
      exact congrArg (List.cons 0) ih
    · rw [List.takeWhile_cons_of_neg (by simp [hx])]
      simp

theorem bs58_roundtrip_zeros (z : Nat) :
    bs58decode (bs58encode (List.replicate z 0)) = some (List.replicate z 0) := by
  have hv0 : beToNat (List.replicate z 0) = 0 := by
    simpa [beToNat] using beToNat_replicate_zero_append z []
  have htw : (List.replicate z (0 : Nat)).takeWhile (fun x => x == 0) =
      List.replicate z 0 :=
    takeWhile_replicate_self (fun x => x == 0) 0 (by decide) z
  have henc : bs58encode (List.replicate z 0) = String.mk (List.replicate z '1') := by
    unfold bs58encode
    rw [htw, List.length_replicate, hv0, natToB58, dif_pos rfl]
    simp only [List.map_nil, List.append_nil]
  rw [henc]
  unfold bs58decode
  rw [string_mk_data, b58Vals_replicate_one,
    takeWhile_replicate_self (fun c => c == '1') '1' (by decide) z,
    List.length_replicate]
  have hd0 : b58DigitsToNat (List.replicate z 0) = 0 := by
    simpa [b58DigitsToNat] using b58DigitsToNat_replicate_zero_append z []
  show some (List.replicate z 0 ++
      natToBytesBE (b58DigitsToNat (List.replicate z 0))) = some (List.replicate z 0)
  rw [hd0, natToBytesBE, dif_pos rfl, List.append_nil]

theorem bs58_roundtrip_pos (z x : Nat) (xs : List Nat) (hx : x ≠ 0)
    (hxlt : x < 256) (hxs : ∀ bb ∈ xs, bb < 256) :
    bs58decode (bs58encode (List.replicate z 0 ++ x :: xs)) =
      some (List.replicate z 0 ++ x :: xs) := by
  have hv : beToNat (List.replicate z 0 ++ x :: xs) = beToNat (x :: xs) :=
    beToNat_replicate_zero_append z (x :: xs)
  have hvne : beToNat (x :: xs) ≠ 0 := beToNat_cons_pos x xs hx
  obtain ⟨d, ds, heq, hd0, hd58⟩ := natToB58_head (beToNat (x :: xs)) hvne
  have htw : (List.replicate z (0 : Nat) ++ x :: xs).takeWhile (fun b => b == 0) =
      List.replicate z 0 :=
    takeWhile_replicate_append (fun b => b == 0) 0 x xs (by decide) (by simp [hx]) z
  have henc : bs58encode (List.replicate z 0 ++ x :: xs) =
      String.mk (List.replicate z '1' ++ b58Char d :: ds.map b58Char) := by
    unfold bs58encode
    rw [htw, List.length_replicate, hv, heq, List.map_cons]
  have hdlt : ∀ dd ∈ d :: ds, dd < 58 := by
    rw [← heq]
    exact natToB58_digits_lt _
  have hvals : b58Vals (List.replicate z '1' ++ b58Char d :: ds.map b58Char) =
      some (List.replicate z 0 ++ d :: ds) := by
    have h2 : b58Vals ((d :: ds).map b58Char) = some (d :: ds) :=
      b58Vals_map_b58Char _ hdlt
    rw [List.map_cons] at h2
    exact b58Vals_append _ _ _ _ (b58Vals_replicate_one z) h2
  have hne1 : b58Char d ≠ '1' :=
    (by decide : ∀ dd, dd < 58 → dd ≠ 0 → b58Char dd ≠ '1') d hd58 hd0
  have htw2 : (List.replicate z '1' ++ b58Char d :: ds.map b58Char).takeWhile
      (fun c => c == '1') = List.replicate z '1' :=
    takeWhile_replicate_append (fun c => c == '1') '1' (b58Char d) (ds.map b58Char)
      (by decide) (by simp [hne1]) z
  rw [henc]
  unfold bs58decode
  rw [string_mk_data, hvals, htw2, List.length_replicate]
  have hdig : b58DigitsToNat (List.replicate z 0 ++ d :: ds) = beToNat (x :: xs) := by
    rw [b58DigitsToNat_replicate_zero_append, ← heq, b58_roundtrip_nat]
  show some (List.replicate z 0 ++
      natToBytesBE (b58DigitsToNat (List.replicate z 0 ++ d :: ds))) =
    some (List.replicate z 0 ++ x :: xs)
  rw [hdig, natToBytesBE_beToNat xs x hx hxlt hxs]

/-- The base-58 encoder and decoder of the bs58 library invert each
other on every byte sequence. -/
theorem bs58_roundtrip (b : List Nat) (hb : ∀ x ∈ b, x < 256) :
    bs58decode (bs58encode b) = some b := by
  have hsplit : b.takeWhile (fun x => x == 0) ++ b.dropWhile (fun x => x == 0) = b :=
    List.takeWhile_append_dropWhile (fun x : Nat => x == 0) b
  have hrep := takeWhile_zero_replicate b
  have hsplit2 : List.replicate (b.takeWhile (fun x => x == 0)).length 0
      ++ b.dropWhile (fun x => x == 0) = b := by
    rw [← hrep]
    exact hsplit
  cases hb2 : b.dropWhile (fun x => x == 0) with
  | nil =>
    obtain ⟨z, hz⟩ : ∃ z, b = List.replicate z 0 := by
      refine ⟨(b.takeWhile (fun x => x == 0)).length, ?_⟩
      have h := hsplit2
      rw [hb2, List.append_nil] at h
      exact h.symm
    rw [hz]
    exact bs58_roundtrip_zeros z
  | cons y ys =>
    have hy0 : (y == 0) = false := dropWhile_head_false _ b y ys hb2
    have hy : y ≠ 0 := by simpa using hy0
    have hmem : ∀ bb ∈ y :: ys, bb ∈ b := by
      intro bb hbb
      rw [← hsplit2, hb2]
      exact List.mem_append_right _ hbb
    obtain ⟨z, hz⟩ : ∃ z, b = List.replicate z 0 ++ y :: ys := by
      refine ⟨(b.takeWhile (fun x => x == 0)).length, ?_⟩
      have h := hsplit2
      rw [hb2] at h
      exact h.symm
    rw [hz]
    exact bs58_roundtrip_pos z y ys hy (hb y (hmem y (by simp)))
      (fun bb hbb => hb bb (hmem bb (by simp [hbb])))

theorem leBytes_lt (k n : Nat) : ∀ y ∈ leBytes k n, y < 256 := by
  intro y hy
  simp only [leBytes, List.mem_map, List.mem_range] at hy
  obtain ⟨i, _, rfl⟩ := hy
  exact Nat.mod_lt _ (by norm_num)

theorem ed25519Pub_lt (seed : List Nat) : ∀ y ∈ ed25519Pub seed, y < 256 := by
  intro y hy
  unfold ed25519Pub edCompress at hy
  exact leBytes_lt _ _ y hy

/-- C8: in the Ed25519 variant, for every 32-byte seed, base-58
decoding the exported combined secret blob yields exactly 64 bytes,
the first 32 of which are the seed and the last 32 the Ed25519 public
key derived from that seed, and the address is the base-58 encoding of
the public key alone. -/
theorem sol_export_roundtrip (seed : List Nat) (hl : seed.length = 32)
    (hb : ∀ x ∈ seed, x < 256) :
    bs58decode ((Sol.account seed).privateKey) = some (seed ++ ed25519Pub seed) ∧
    (seed ++ ed25519Pub seed).length = 64 ∧
    (seed ++ ed25519Pub seed).take 32 = seed ∧
    (seed ++ ed25519Pub seed).drop 32 = ed25519Pub seed ∧
    (Sol.account seed).address = bs58encode (ed25519Pub seed) := by
  have hblob : ∀ x ∈ seed ++ ed25519Pub seed, x < 256 := by
    intro x hx
    rcases List.mem_append.mp hx with h | h
    · exact hb x h
    · exact ed25519Pub_lt seed x h
  refine ⟨?_, ?_, ?_, ?_, rfl⟩
  · show bs58decode (bs58encode (seed ++ ed25519Pub seed)) = _
    exact bs58_roundtrip _ hblob
  · rw [List.length_append, hl, ed25519Pub_length]
  · rw [← hl]
    exact List.take_left _ _
  · rw [← hl]
    exact List.drop_left _ _

theorem sol_export_roundtrip_witness :
    bs58decode ((Sol.account (List.replicate 32 (0 : Nat))).privateKey) =
      some (List.replicate 32 0 ++ ed25519Pub (List.replicate 32 0)) ∧
    (List.replicate 32 (0 : Nat) ++ ed25519Pub (List.replicate 32 0)).length = 64 ∧
    (List.replicate 32 (0 : Nat) ++ ed25519Pub (List.replicate 32 0)).take 32 =
      List.replicate 32 0 ∧
    (List.replicate 32 (0 : Nat) ++ ed25519Pub (List.replicate 32 0)).drop 32 =
      ed25519Pub (List.replicate 32 0) ∧
    (Sol.account (List.replicate 32 (0 : Nat))).address =
      bs58encode (ed25519Pub (List.replicate 32 0)) :=
  sol_export_roundtrip (List.replicate 32 0) (by decide) (by decide)
